import Mathlib

/-!
# Parking sensor: distance-to-LED-pattern logic

Shallow embedding of `src/main.cpp` (an Arduino sketch for an ESP8266-class
board: 32-bit `int`/`long`, IEEE binary64 `double`).

* `readDistance` : pulse width (µs) to centimetres, computed in `double`.
* `loop`         : one iteration of the polling loop: threshold from the
                   potentiometer, distance from the echo pulse, LED pattern.

The display and the physical strip are outputs of external drivers; the
embedding keeps the program's globals (`leds`, `numLedsOn`, `ctrl`, ...).
Machine integers are unbounded `Int`; `iteration_fits_int` shows that for a
10-bit potentiometer reading and a pulse width below `2^31` no intermediate
value leaves the 32-bit range.
-/

namespace ParkingSensor

/-! ## Binary64 arithmetic on finite non-negative values -/

/-- A finite non-negative floating-point value `mant * 2 ^ exp`.  The sign,
infinities, NaN and the exponent limits are left out: every value occurring in
`readDistance` is `0` or lies in `[2^-5, 2^27)`. -/
structure Double where
  mant : Nat
  exp : Int
deriving DecidableEq

/-- Bit counting by repeated halving, at most `fuel` times. -/
def bitLengthAux : Nat → Nat → Nat
  | 0, _ => 0
  | fuel + 1, n => if n = 0 then 0 else bitLengthAux fuel (n / 2) + 1

/-- Number of significant bits of `n` (`0` for `0`); `n` halvings always
suffice. -/
def bitLength (n : Nat) : Nat := bitLengthAux n n

namespace Double

/-- Precision of binary64: 53 significant bits. -/
def precision : Nat := 53

/-- Round the exact value `m * 2 ^ e` to 53 significant bits, to nearest, ties
to even (the IEEE default rounding used by every `double` operation). -/
def round (m : Nat) (e : Int) : Double :=
  if bitLength m ≤ precision then ⟨m, e⟩
  else
    let s := bitLength m - precision
    let q := m / 2 ^ s
    let r := m % 2 ^ s
    let half := 2 ^ (s - 1)
    if r > half ∨ (r = half ∧ q % 2 = 1) then ⟨q + 1, e + s⟩ else ⟨q, e + s⟩

/-- Correctly rounded value of the exact ratio `(n / d) * 2 ^ e`: the quotient
is computed with more than 64 bits and a sticky bit recording a non-zero
remainder, then rounded.  A zero divisor (a non-finite result) is outside the
model. -/
def roundRatio (n d : Nat) (e : Int) : Double :=
  let k := bitLength d + 64
  let q := (n * 2 ^ k) / d
  let sticky := if (n * 2 ^ k) % d = 0 then 0 else 1
  round (2 * q + sticky) (e - k - 1)

/-- Conversion `long` to `double` (exact below `2^53`). -/
def ofNat (n : Nat) : Double := round n 0

/-- Multiplication of two doubles: the exact product, rounded. -/
def mul (a b : Double) : Double := round (a.mant * b.mant) (a.exp + b.exp)

/-- Division of two doubles: the exact quotient, rounded. -/
def div (a b : Double) : Double := roundRatio a.mant b.mant (a.exp - b.exp)

/-- Conversion `double` to `int`: truncation toward zero. -/
def toInt (x : Double) : Int :=
  if 0 ≤ x.exp then x.mant * 2 ^ x.exp.toNat else x.mant / 2 ^ (-x.exp).toNat

end Double

/-! ## Constants and globals of the sketch -/

/-- Strip length: `#define NUM_LEDS 16`. -/
def NUM_LEDS : Nat := 16

/-- The literal of `#define SOUND_SPEED 0.034`: the double nearest to `34/1000`. -/
def SOUND_SPEED : Double := Double.roundRatio 34 1000 0

/-- Modelled from the spec: the FastLED pixel type `CRGB` is declared in the
library, not in src/; a pixel is three 8-bit channels and an unlit slot is
all-zero. -/
structure CRGB where
  r : Nat
  g : Nat
  b : Nat
deriving DecidableEq

namespace CRGB

/-- Modelled from the spec: the unlit colour (`CRGB::Black`, 0x000000). -/
def Black : CRGB := ⟨0x00, 0x00, 0x00⟩

/-- Modelled from the spec: band A colour (`CRGB::Green`, 0x008000). -/
def Green : CRGB := ⟨0x00, 0x80, 0x00⟩

/-- Modelled from the spec: band B colour (`CRGB::Orange`, 0xFFA500). -/
def Orange : CRGB := ⟨0xFF, 0xA5, 0x00⟩

/-- Modelled from the spec: band C colour (`CRGB::Red`, 0xFF0000). -/
def Red : CRGB := ⟨0xFF, 0x00, 0x00⟩

end CRGB

/-- The globals of the sketch (lines 26-41).  `leds` is `CRGB leds[NUM_LEDS]`:
a state of the program has `leds.length = NUM_LEDS`. -/
structure State where
  leds : List CRGB
  numLedsOn : Int
  ctrl : Int
  potValue : Int
  duration : Int
  distanceCm : Int

/-! ## Arduino helpers -/

/-- Modelled from the spec: the Arduino core function `map` is not in src/.
It is the linear rescale `(x - in_min) * (out_max - out_min) / (in_max - in_min)
+ out_min` in integer arithmetic, the division rounding toward zero; a zero
denominator is a division by zero, returned as `none`. -/
def map (x in_min in_max out_min out_max : Int) : Option Int :=
  if in_max - in_min = 0 then none
  else some (((x - in_min) * (out_max - out_min)).tdiv (in_max - in_min) + out_min)

/-- Modelled from the spec: the Arduino macro `constrain(amt, low, high)`,
`amt < low ? low : (amt > high ? high : amt)`, is not in src/. -/
def constrain (amt low high : Int) : Int :=
  if amt < low then low else if amt > high then high else amt

/-- Modelled from the spec: `FastLED.clear()` is not in src/; it sets every
slot of the strip to unlit. -/
def FastLED_clear (leds : List CRGB) : List CRGB :=
  leds.map (fun _ => CRGB.Black)

/-! ## The sketch -/

/-- `readDistance` (lines 110-119) on the pulse width returned by `pulseIn`:
`duration * SOUND_SPEED / 2` in `double`, truncated to `int`. -/
def readDistance (pulseIn : Nat) : Int :=
  let duration := pulseIn
  Double.toInt (Double.div (Double.mul (Double.ofNat duration) SOUND_SPEED) (Double.ofNat 2))

/-- Colour written to slot `i` by the body of the `for` loop (lines 96-102). -/
def zoneColor (i : Nat) : CRGB :=
  if i < 4 then CRGB.Green
  else if i < 9 then CRGB.Orange
  else CRGB.Red

/-- The loop `for (int i = 0; i < numLedsOn; i++) leds[i] = ...` (lines 95-103). -/
def lightZones (numLedsOn : Int) (leds : List CRGB) : List CRGB :=
  (List.range numLedsOn.toNat).foldl (fun l i => l.set i (zoneColor i)) leds

/-- The two per-iteration states of the pattern. -/
inductive Branch where
  | off
  | on
deriving DecidableEq

/-- The test of line 84: `if (distanceCm > ctrl)`. -/
def branchOf (distanceCm ctrl : Int) : Branch :=
  if distanceCm > ctrl then Branch.off else Branch.on

/-- Lines 88-89: `numLedsOn = map(distanceCm, ctrl, 5, 0, NUM_LEDS)` followed by
`numLedsOn = constrain(numLedsOn, 0, NUM_LEDS)`. -/
def litCount (distanceCm ctrl : Int) : Option Int :=
  match map distanceCm ctrl 5 0 NUM_LEDS with
  | none => none
  | some numLedsOn => some (constrain numLedsOn 0 NUM_LEDS)

/-- Pattern computation (lines 84-104) on the globals; `none` is a division by
zero inside `map`. -/
def updatePattern (st : State) : Option State :=
  match branchOf st.distanceCm st.ctrl with
  | Branch.off => some { st with leds := FastLED_clear st.leds }
  | Branch.on =>
    match litCount st.distanceCm st.ctrl with
    | none => none
    | some numLedsOn =>
      some { st with
        numLedsOn := numLedsOn
        leds := lightZones numLedsOn (FastLED_clear st.leds) }

/-- The threshold of line 69: `map(potValue, 0, 1023, 0, 100)`. -/
def threshold (potValue : Int) : Option Int :=
  map potValue 0 1023 0 100

/-- One iteration of `loop` (lines 66-108), given what `analogRead` and
`pulseIn` return in it. -/
def loop (st : State) (analogRead : Int) (pulseIn : Nat) : Option State :=
  match threshold analogRead with
  | none => none
  | some ctrl =>
    updatePattern { st with
      potValue := analogRead
      ctrl := ctrl
      duration := pulseIn
      distanceCm := readDistance pulseIn }

/-- The fully lit strip: slots 0..3 green, 4..8 orange, 9..15 red. -/
def fullStrip : List CRGB :=
  List.replicate 4 CRGB.Green ++ List.replicate 5 CRGB.Orange ++ List.replicate 7 CRGB.Red

/-- The fully unlit strip. -/
def darkStrip : List CRGB := List.replicate NUM_LEDS CRGB.Black

/-- A prior state whose strip is fully lit, for concrete instances. -/
def litState : State := ⟨fullStrip, 7, 0, 0, 0, 0⟩

/-- A prior state whose strip is fully unlit, for concrete instances. -/
def darkState : State := ⟨darkStrip, 0, 0, 0, 0, 0⟩

/-! ## Integer helpers: `map`, `constrain`, the strip -/

theorem map_of_ne (x a b c d : Int) (h : b ≠ a) :
    map x a b c d = some (((x - a) * (d - c)).tdiv (b - a) + c) := by
  have h0 : b - a ≠ 0 := sub_ne_zero.mpr h
  simp [map, h0]

theorem map_eq_none_iff (x a b c d : Int) : map x a b c d = none ↔ b = a := by
  unfold map
  by_cases h : b - a = 0
  · simp [h, sub_eq_zero.mp h]
  · have h1 : b ≠ a := fun e => h (sub_eq_zero.mpr e)
    simp [h, h1]

theorem threshold_eq (r : Int) (h : 0 ≤ r) : threshold r = some (r * 100 / 1023) := by
  unfold threshold
  rw [map_of_ne _ _ _ _ _ (by decide)]
  simp only [sub_zero, add_zero]
  rw [Int.tdiv_eq_ediv (by positivity) (by decide)]

/-- Above the far end 5 and in the ON range the rescale is a quotient of
non-negative numbers. -/
theorem map_strip (d t : Int) (ht : 5 < t) (hd : d ≤ t) :
    map d t 5 0 NUM_LEDS = some ((t - d) * 16 / (t - 5)) := by
  rw [map_of_ne _ _ _ _ _ (by omega)]
  have e1 : (d - t) * ((NUM_LEDS : Int) - 0) = -((t - d) * 16) := by
    simp only [NUM_LEDS]; push_cast; ring
  have e2 : (5 : Int) - t = -(t - 5) := by ring
  rw [e1, e2, Int.neg_tdiv_neg, add_zero,
    Int.tdiv_eq_ediv (mul_nonneg (by omega) (by decide)) (by omega)]

theorem constrain_mem (n lo hi : Int) (h : lo ≤ hi) :
    lo ≤ constrain n lo hi ∧ constrain n lo hi ≤ hi := by
  unfold constrain
  split_ifs <;> omega

theorem constrain_mono (m n lo hi : Int) (h : lo ≤ hi) (hmn : m ≤ n) :
    constrain m lo hi ≤ constrain n lo hi := by
  unfold constrain
  split_ifs <;> omega

theorem litCount_strip (d t : Int) (ht : 5 < t) (hd : d ≤ t) :
    litCount d t = some (constrain ((t - d) * 16 / (t - 5)) 0 NUM_LEDS) := by
  simp only [litCount, map_strip d t ht hd]

theorem litCount_eq_none_iff (d t : Int) : litCount d t = none ↔ t = 5 := by
  unfold litCount
  by_cases h : t = 5
  · subst h
    have hm : map d 5 5 0 NUM_LEDS = none := (map_eq_none_iff _ _ _ _ _).mpr rfl
    simp [hm]
  · have hm := map_of_ne d t 5 0 NUM_LEDS (fun e => h e.symm)
    simp [hm, h]

/-- Near objects: at most 5 cm away the rescale reaches the strip length. -/
theorem strip_quotient_ge (d t : Int) (ht : 5 < t) (hd : d ≤ 5) :
    16 ≤ (t - d) * 16 / (t - 5) := by
  apply Int.le_ediv_of_mul_le (by omega)
  nlinarith

theorem litCount_near (d t : Int) (ht : 5 < t) (hd : d ≤ 5) :
    litCount d t = some 16 := by
  rw [litCount_strip d t ht (by omega)]
  have h := strip_quotient_ge d t ht hd
  simp only [constrain, NUM_LEDS]
  push_cast
  split_ifs <;> first | rfl | (exfalso; omega) | (congr 1; omega)

theorem clear_eq (leds : List CRGB) (h : leds.length = NUM_LEDS) :
    FastLED_clear leds = darkStrip := by
  unfold FastLED_clear darkStrip
  rw [List.map_const', h]

/-- What the `for` loop leaves on a cleared strip: the first `k` slots carry
their band colour, the others stay unlit. -/
theorem lightZones_dark (k : Nat) (hk : k ≤ 16) :
    lightZones k darkStrip =
      (List.range 16).map (fun i => if i < k then zoneColor i else CRGB.Black) := by
  simp only [lightZones, Int.toNat_ofNat]
  interval_cases k <;> decide

theorem updatePattern_off (st : State) (h : st.distanceCm > st.ctrl) :
    updatePattern st = some { st with leds := FastLED_clear st.leds } := by
  simp [updatePattern, branchOf, h]

theorem updatePattern_on (st : State) (h : st.distanceCm ≤ st.ctrl) :
    updatePattern st =
      (litCount st.distanceCm st.ctrl).map (fun n =>
        { st with numLedsOn := n, leds := lightZones n (FastLED_clear st.leds) }) := by
  have h1 : ¬ st.distanceCm > st.ctrl := not_lt.mpr h
  simp only [updatePattern, branchOf, h1, if_false]
  cases litCount st.distanceCm st.ctrl <;> rfl

/-! ## Binary64 helpers: rounding keeps bounds that lie on a coarser grid -/

theorem bitLengthAux_le_iff (fuel : Nat) :
    ∀ n k : Nat, n ≤ fuel → (bitLengthAux fuel n ≤ k ↔ n < 2 ^ k) := by
  induction fuel with
  | zero =>
    intro n k hn
    have h0 : n = 0 := by omega
    subst h0
    simp [bitLengthAux]
  | succ fuel ih =>
    intro n k hn
    by_cases h0 : n = 0
    · subst h0
      simp [bitLengthAux]
    · simp only [bitLengthAux, h0, if_false]
      cases k with
      | zero => simp; omega
      | succ k =>
        have hdiv : n / 2 ≤ fuel := by omega
        rw [Nat.add_le_add_iff_right, ih (n / 2) k hdiv, pow_succ]
        omega

theorem bitLength_le_iff (n k : Nat) : bitLength n ≤ k ↔ n < 2 ^ k :=
  bitLengthAux_le_iff n n k (le_refl n)

theorem round_small (m : Nat) (e : Int) (h : m < 2 ^ 53) : Double.round m e = ⟨m, e⟩ := by
  have hb : bitLength m ≤ Double.precision := (bitLength_le_iff m 53).mpr h
  simp [Double.round, hb]

/-- Rounding `m * 2 ^ e` drops `s` low bits (none when `m` has at most 53 bits), and
the kept mantissa respects every bound on `m` that is a multiple of `2 ^ t` with
`s ≤ t`. -/
theorem round_spec (m : Nat) (e : Int) :
    ∃ s q : Nat, Double.round m e = ⟨q, e + s⟩ ∧ (s = 0 ∨ 2 ^ (52 + s) ≤ m) ∧
      (∀ t a : Nat, s ≤ t → a * 2 ^ t ≤ m → a * 2 ^ (t - s) ≤ q) ∧
      (∀ t b : Nat, s ≤ t → m ≤ b * 2 ^ t → q ≤ b * 2 ^ (t - s)) := by
  by_cases hb : bitLength m ≤ Double.precision
  · refine ⟨0, m, ?_, Or.inl rfl, ?_, ?_⟩
    · simp [Double.round, hb]
    · intro t a _ h; simpa using h
    · intro t b _ h; simpa using h
  · have hb53 : ¬ bitLength m ≤ 53 := hb
    have hlen : 53 < bitLength m := not_le.mp hb53
    obtain ⟨s, hs⟩ : ∃ s, s = bitLength m - 53 := ⟨_, rfl⟩
    have hs1 : 1 ≤ s := by omega
    have hbig : 2 ^ (52 + s) ≤ m := by
      by_contra hlt
      have := (bitLength_le_iff m (52 + s)).mpr (not_le.mp hlt)
      omega
    have hpos : 0 < 2 ^ s := Nat.two_pow_pos s
    have hdm := Nat.div_add_mod m (2 ^ s)
    have hmod : m % 2 ^ s < 2 ^ s := Nat.mod_lt _ hpos
    have hlo : ∀ t a : Nat, s ≤ t → a * 2 ^ t ≤ m → a * 2 ^ (t - s) ≤ m / 2 ^ s := by
      intro t a hst h
      rw [Nat.le_div_iff_mul_le hpos, mul_assoc, ← pow_add, Nat.sub_add_cancel hst]
      exact h
    by_cases hup : m % 2 ^ s > 2 ^ (s - 1) ∨ (m % 2 ^ s = 2 ^ (s - 1) ∧ (m / 2 ^ s) % 2 = 1)
    · refine ⟨s, m / 2 ^ s + 1, ?_, Or.inr hbig, ?_, ?_⟩
      · simp only [Double.round, Double.precision, hb53, if_false, ← hs]
        rw [if_pos hup]
      · intro t a hst h
        exact Nat.le_succ_of_le (hlo t a hst h)
      · intro t b hst h
        have hhalf : 0 < 2 ^ (s - 1) := Nat.two_pow_pos (s - 1)
        have hr : 0 < m % 2 ^ s := by
          rcases hup with h1 | ⟨h1, _⟩ <;> omega
        have hB : b * 2 ^ t = 2 ^ s * (b * 2 ^ (t - s)) := by
          rw [mul_left_comm, ← pow_add, Nat.add_sub_cancel' hst]
        rw [hB] at h
        have hlt : 2 ^ s * (m / 2 ^ s) < 2 ^ s * (b * 2 ^ (t - s)) := by omega
        have := Nat.lt_of_mul_lt_mul_left hlt
        omega
    · refine ⟨s, m / 2 ^ s, ?_, Or.inr hbig, hlo, ?_⟩
      · simp only [Double.round, Double.precision, hb53, if_false, ← hs]
        rw [if_neg hup]
      · intro t b hst h
        have hB : b * 2 ^ t = 2 ^ s * (b * 2 ^ (t - s)) := by
          rw [mul_left_comm, ← pow_add, Nat.add_sub_cancel' hst]
        rw [hB] at h
        have hle : 2 ^ s * (m / 2 ^ s) ≤ 2 ^ s * (b * 2 ^ (t - s)) := by omega
        exact Nat.le_of_mul_le_mul_left hle hpos

/-- Number of dropped bits is small when the rounded integer is small. -/
theorem dropped_lt (m s n : Nat) (h : s = 0 ∨ 2 ^ (52 + s) ≤ m) (hm : m < 2 ^ (52 + n)) :
    s = 0 ∨ s < n := by
  rcases h with h | h
  · exact Or.inl h
  · right
    have : 2 ^ (52 + s) < 2 ^ (52 + n) := lt_of_le_of_lt h hm
    have := (Nat.pow_lt_pow_iff_right (by decide : 1 < 2)).mp this
    omega

theorem soundSpeed_eq : SOUND_SPEED = ⟨4899916394579100, -57⟩ := by decide

/-- The literal is within half a unit in the last place of `34/1000`: in units of
`2^-57 / 1000` the error is 352, against a half-unit of 500. -/
theorem soundSpeed_nearest :
    SOUND_SPEED.exp = -57 ∧ 2 ^ 52 ≤ SOUND_SPEED.mant ∧ SOUND_SPEED.mant < 2 ^ 53 ∧
      1000 * SOUND_SPEED.mant = 34 * 2 ^ 57 + 352 := by
  rw [soundSpeed_eq]
  decide

theorem ofNat_two : Double.ofNat 2 = ⟨2, 0⟩ := by decide

/-- Dividing by the double `2.0` rounds the dividend's mantissa shifted by 66 bits. -/
theorem div_two (q : Nat) (e : Int) :
    Double.div ⟨q, e⟩ ⟨2, 0⟩ = Double.round (q * 2 ^ 66) (e - 0 - 66 - 1) := by
  have hb : bitLength 2 + 64 = 66 := by decide
  have h1 : q * 2 ^ 66 % 2 = 0 := by norm_num; omega
  have h2 : 2 * (q * 2 ^ 66 / 2) = q * 2 ^ 66 := by norm_num; omega
  simp only [Double.div, Double.roundRatio, hb, h2, if_pos h1, add_zero, Nat.cast_ofNat]

theorem toInt_neg (Q u : Nat) (E : Int) (hE : E = -(u : Int)) (hu : 0 < u) :
    Double.toInt ⟨Q, E⟩ = ((Q / 2 ^ u : Nat) : Int) := by
  subst hE
  have hneg : ¬ (0 : Int) ≤ -(u : Int) := by omega
  simp only [Double.toInt, hneg, if_false, neg_neg, Int.toNat_ofNat]
  norm_cast

/-- The double computation of `readDistance` agrees with exact arithmetic on
every pulse width a 32-bit `long` can hold. -/
theorem readDistance_eq (d : Nat) (hd : d < 2 ^ 31) :
    readDistance d = ((17 * d / 1000 : Nat) : Int) := by
  obtain ⟨k, hk⟩ : ∃ k, k = 17 * d / 1000 := ⟨_, rfl⟩
  have hd1 : d < 2147483648 := by simpa using hd
  have h0 : Double.ofNat d = ⟨d, 0⟩ :=
    round_small d 0 (lt_trans hd (by norm_num))
  unfold readDistance
  simp only []
  rw [h0, soundSpeed_eq, ofNat_two]
  obtain ⟨s, q, hr, hs, hlo, hhi⟩ := round_spec (d * 4899916394579100) (0 + -57)
  have hmul : Double.mul ⟨d, 0⟩ ⟨4899916394579100, -57⟩ = ⟨q, 0 + -57 + s⟩ := hr
  rw [hmul, div_two]
  have hs32 : s = 0 ∨ s < 32 :=
    dropped_lt _ s 32 hs (by norm_num; omega)
  have hs47 : s ≤ 47 := by omega
  have hq1 := hlo 47 (2048 * k) hs47 (by norm_num; omega)
  have hq2 := hhi 47 (2048 * k + 2047) hs47 (by norm_num; omega)
  obtain ⟨s2, Q, hr2, hs2, hlo2, hhi2⟩ :=
    round_spec (q * 2 ^ 66) (0 + -57 + (s : Int) - 0 - 66 - 1)
  rw [hr2]
  have e113 : 2 ^ (113 - s) = 2 ^ (47 - s) * 2 ^ 66 := by
    rw [← pow_add]; congr 1; omega
  have hm2lo : 2048 * k * 2 ^ (113 - s) ≤ q * 2 ^ 66 := by
    rw [e113, ← mul_assoc]; exact Nat.mul_le_mul_right _ hq1
  have hm2hi : q * 2 ^ 66 ≤ (2048 * k + 2047) * 2 ^ (113 - s) := by
    rw [e113, ← mul_assoc]; exact Nat.mul_le_mul_right _ hq2
  have hk37 : 2048 * k + 2047 < 2 ^ 37 := by norm_num; omega
  have hm2lt : q * 2 ^ 66 < 2 ^ (52 + (98 - s)) := by
    calc q * 2 ^ 66 ≤ (2048 * k + 2047) * 2 ^ (113 - s) := hm2hi
      _ < 2 ^ 37 * 2 ^ (113 - s) := Nat.mul_lt_mul_of_pos_right hk37 (Nat.two_pow_pos _)
      _ = 2 ^ (52 + (98 - s)) := by rw [← pow_add]; congr 1; omega
  have hs2lt := dropped_lt _ s2 (98 - s) hs2 hm2lt
  have hs2le : s2 ≤ 113 - s := by omega
  have hQ1 := hlo2 (113 - s) (2048 * k) hs2le hm2lo
  have hQ2 := hhi2 (113 - s) (2048 * k + 2047) hs2le hm2hi
  rw [toInt_neg Q (124 - s - s2) _ (by omega) (by omega)]
  congr 1
  rw [← hk]
  have hW : 0 < 2 ^ (113 - s - s2) := Nat.two_pow_pos _
  have e124 : 2 ^ (124 - s - s2) = 2 ^ (113 - s - s2) * 2048 := by
    rw [show (2048 : Nat) = 2 ^ 11 by norm_num, ← pow_add]; congr 1; omega
  rw [e124]
  apply Nat.div_eq_of_lt_le
  · calc k * (2 ^ (113 - s - s2) * 2048) = 2048 * k * 2 ^ (113 - s - s2) := by ring
      _ ≤ Q := hQ1
  · calc Q ≤ (2048 * k + 2047) * 2 ^ (113 - s - s2) := hQ2
      _ < (2048 * k + 2048) * 2 ^ (113 - s - s2) :=
        Nat.mul_lt_mul_of_pos_right (by omega) hW
      _ = (k + 1) * (2 ^ (113 - s - s2) * 2048) := by ring

/-- In exact arithmetic `d * 0.034 / 2` is `17 * d / 1000`. -/
theorem exact_floor (d : Nat) :
    ⌊(d : ℚ) * (34 / 1000) / 2⌋ = ((17 * d / 1000 : Nat) : Int) := by
  have h : (d : ℚ) * (34 / 1000) / 2 = ((17 * d : Nat) : ℚ) / ((1000 : Nat) : ℚ) := by
    push_cast; ring
  rw [h, Rat.floor_natCast_div_natCast]
  norm_cast

/-- Slot `i` of a cleared strip after the `for` loop ran `k` times. -/
theorem lit_slot (k i : Nat) (hk : k ≤ 16) (hi : i < 16) :
    (lightZones k darkStrip)[i]? = some (if i < k then zoneColor i else CRGB.Black) := by
  rw [lightZones_dark k hk, List.getElem?_map, List.getElem?_range hi]
  rfl

theorem lightZones_full : lightZones 16 darkStrip = fullStrip := by decide

theorem lightZones_none : lightZones 0 darkStrip = darkStrip := by decide

theorem darkStrip_slot (i : Nat) (hi : i < 16) : darkStrip[i]? = some CRGB.Black := by
  unfold darkStrip
  exact List.getElem?_replicate_of_lt hi

/-- Outside `ctrl = 5` the lit count is defined and lies in `[0, 16]`. -/
theorem litCount_range (d t k : Int) (h : litCount d t = some k) : 0 ≤ k ∧ k ≤ 16 := by
  unfold litCount at h
  cases hm : map d t 5 0 NUM_LEDS with
  | none => simp [hm] at h
  | some n =>
    simp only [hm, Option.some.injEq] at h
    have := constrain_mem n 0 NUM_LEDS (by simp [NUM_LEDS])
    rw [h] at this
    simpa [NUM_LEDS] using this

/-- ON state: the globals after the pattern computation, given the lit count. -/
theorem updatePattern_lit (st : State) (k : Int) (hlen : st.leds.length = NUM_LEDS)
    (hon : st.distanceCm ≤ st.ctrl) (hk : litCount st.distanceCm st.ctrl = some k) :
    updatePattern st = some { st with numLedsOn := k, leds := lightZones k darkStrip } := by
  rw [updatePattern_on st hon, hk, clear_eq st.leds hlen]
  rfl

/-- Every intermediate value of one iteration fits a 32-bit `int`, so the
unbounded integers of the embedding never leave the machine range. -/
theorem iteration_fits_int (r t d : Int) (p : Nat) (hr0 : 0 ≤ r) (hr : r ≤ 1023)
    (hp : p < 2 ^ 31) (ht0 : 0 ≤ t) (ht : t ≤ 100) (hd0 : 0 ≤ d) (hd : d ≤ t) :
    r * 100 < 2 ^ 31 ∧ 0 ≤ readDistance p ∧ readDistance p < 2 ^ 31 ∧
      -(2 ^ 31) < (d - t) * 16 ∧ (d - t) * 16 ≤ 0 := by
  rw [readDistance_eq p hp]
  have hp1 : p < 2147483648 := by simpa using hp
  refine ⟨by norm_num; omega, by positivity, ?_, by norm_num; omega, by omega⟩
  have : 17 * p / 1000 < 2147483648 := by omega
  norm_num
  exact_mod_cast this

/-! ## The claims -/

/-- C1: for every pulse width `d` that the 32-bit `long duration` can hold, the
distance `readDistance` computes in `double` arithmetic equals
`floor(d * 0.034 / 2)` with `0.034` read as the rational `34/1000`, that is
`17 * d / 1000` rounded down; and the distance for `d = 0` is `0`. -/
theorem readDistance_floor (d : Nat) (hd : d < 2 ^ 31) :
    readDistance d = ⌊(d : ℚ) * (34 / 1000) / 2⌋ ∧
      readDistance d = ((17 * d / 1000 : Nat) : Int) ∧ readDistance 0 = 0 := by
  refine ⟨?_, readDistance_eq d hd, ?_⟩
  · rw [exact_floor, readDistance_eq d hd]
  · rw [readDistance_eq 0 (by norm_num)]
    rfl

theorem readDistance_floor_witness :
    2941 < 2 ^ 31 ∧ readDistance 2941 = ⌊((2941 : Nat) : ℚ) * (34 / 1000) / 2⌋ ∧
      readDistance 2941 = ((17 * 2941 / 1000 : Nat) : Int) ∧ readDistance 0 = 0 :=
  ⟨by norm_num, readDistance_floor 2941 (by norm_num)⟩

/-- C2: for potentiometer readings `0 ≤ r1 ≤ r2 ≤ 1023` the thresholds
`map(r, 0, 1023, 0, 100)` are defined, equal the truncated `r * 100 / 1023`,
are ordered like the readings and lie in `[0, 100]`; the reading `0` gives `0`
and the reading `1023` gives `100`. -/
theorem threshold_monotone (r1 r2 : Int) (h0 : 0 ≤ r1) (h12 : r1 ≤ r2) (h2 : r2 ≤ 1023) :
    ∃ t1 t2 : Int, threshold r1 = some t1 ∧ threshold r2 = some t2 ∧
      t1 = (r1 * 100).tdiv 1023 ∧ t2 = (r2 * 100).tdiv 1023 ∧
      0 ≤ t1 ∧ t1 ≤ t2 ∧ t2 ≤ 100 ∧
      threshold 0 = some 0 ∧ threshold 1023 = some 100 := by
  refine ⟨r1 * 100 / 1023, r2 * 100 / 1023, threshold_eq r1 h0,
    threshold_eq r2 (by omega), ?_, ?_, by omega, by omega, by omega, by decide, by decide⟩
  · rw [Int.tdiv_eq_ediv (by omega) (by decide)]
  · rw [Int.tdiv_eq_ediv (by omega) (by decide)]

theorem threshold_monotone_witness :
    ∃ t1 t2 : Int, threshold 100 = some t1 ∧ threshold 512 = some t2 ∧
      t1 = ((100 : Int) * 100).tdiv 1023 ∧ t2 = ((512 : Int) * 100).tdiv 1023 ∧
      0 ≤ t1 ∧ t1 ≤ t2 ∧ t2 ≤ 100 ∧
      threshold 0 = some 0 ∧ threshold 1023 = some 100 :=
  threshold_monotone 100 512 (by decide) (by decide) (by decide)

/-- C3: when the distance exceeds the threshold, whatever the 16 slots held
before, the pattern computation succeeds and leaves every one of the 16 slots
black; no other global changes. -/
theorem off_state_unlit (st : State) (hlen : st.leds.length = NUM_LEDS)
    (hoff : st.distanceCm > st.ctrl) :
    ∃ st' : State, updatePattern st = some st' ∧ st'.leds = darkStrip ∧
      st'.leds.length = 16 ∧ (∀ i : Nat, i < 16 → st'.leds[i]? = some CRGB.Black) ∧
      st'.numLedsOn = st.numLedsOn := by
  refine ⟨_, updatePattern_off st hoff, clear_eq st.leds hlen, ?_, ?_, rfl⟩
  · show (FastLED_clear st.leds).length = 16
    rw [clear_eq st.leds hlen]; rfl
  · intro i hi
    show (FastLED_clear st.leds)[i]? = some CRGB.Black
    rw [clear_eq st.leds hlen]
    exact darkStrip_slot i hi

theorem off_state_unlit_witness :
    litState.leds.length = NUM_LEDS ∧
    ∃ st' : State, updatePattern { litState with distanceCm := 80, ctrl := 50 } = some st' ∧
      st'.leds = darkStrip ∧ st'.leds.length = 16 ∧
      (∀ i : Nat, i < 16 → st'.leds[i]? = some CRGB.Black) ∧
      st'.numLedsOn = 7 :=
  ⟨by decide, off_state_unlit { litState with distanceCm := 80, ctrl := 50 }
    (by decide) (by decide)⟩

/-- C4: for a threshold above 5 and two distances `d1 ≤ d2 ≤ t` (in particular
`0 ≤ d1`), both pattern computations succeed, the lit counts
`constrain(map(d, t, 5, 0, 16), 0, 16)` lie in `[0, 16]`, and the farther object
lights at most as many slots as the nearer one. -/
theorem litCount_antitone (st1 st2 : State) (hctrl : st1.ctrl = st2.ctrl)
    (ht : 5 < st1.ctrl)
    (h12 : st1.distanceCm ≤ st2.distanceCm) (h2 : st2.distanceCm ≤ st2.ctrl) :
    ∃ s1 s2 : State, updatePattern st1 = some s1 ∧ updatePattern st2 = some s2 ∧
      litCount st1.distanceCm st1.ctrl = some s1.numLedsOn ∧
      litCount st2.distanceCm st2.ctrl = some s2.numLedsOn ∧
      0 ≤ s2.numLedsOn ∧ s2.numLedsOn ≤ s1.numLedsOn ∧ s1.numLedsOn ≤ 16 := by
  have h1 : st1.distanceCm ≤ st1.ctrl := by omega
  have ht2 : 5 < st2.ctrl := by omega
  have e1 := litCount_strip st1.distanceCm st1.ctrl ht h1
  have e2 := litCount_strip st2.distanceCm st2.ctrl ht2 h2
  have hpos : 0 < st1.ctrl - 5 := by omega
  have hquot : (st2.ctrl - st2.distanceCm) * 16 / (st2.ctrl - 5) ≤
      (st1.ctrl - st1.distanceCm) * 16 / (st1.ctrl - 5) := by
    rw [← hctrl]
    exact Int.ediv_le_ediv hpos (by omega)
  have hb : (0 : Int) ≤ NUM_LEDS := by simp [NUM_LEDS]
  obtain ⟨n1, hn1⟩ : ∃ n, n = constrain ((st1.ctrl - st1.distanceCm) * 16 / (st1.ctrl - 5))
      0 NUM_LEDS := ⟨_, rfl⟩
  obtain ⟨n2, hn2⟩ : ∃ n, n = constrain ((st2.ctrl - st2.distanceCm) * 16 / (st2.ctrl - 5))
      0 NUM_LEDS := ⟨_, rfl⟩
  rw [← hn1] at e1
  rw [← hn2] at e2
  refine ⟨{ st1 with numLedsOn := n1, leds := lightZones n1 (FastLED_clear st1.leds) },
    { st2 with numLedsOn := n2, leds := lightZones n2 (FastLED_clear st2.leds) },
    ?_, ?_, e1, e2, ?_, ?_, ?_⟩
  · rw [updatePattern_on st1 h1, e1]; rfl
  · rw [updatePattern_on st2 h2, e2]; rfl
  all_goals simp only [hn1, hn2]
  · exact (constrain_mem _ 0 NUM_LEDS hb).1
  · exact constrain_mono _ _ 0 NUM_LEDS hb hquot
  · have := (constrain_mem ((st1.ctrl - st1.distanceCm) * 16 / (st1.ctrl - 5)) 0 NUM_LEDS hb).2
    simpa [NUM_LEDS] using this

theorem litCount_antitone_witness :
    ∃ s1 s2 : State,
      updatePattern { litState with distanceCm := 20, ctrl := 50 } = some s1 ∧
      updatePattern { litState with distanceCm := 40, ctrl := 50 } = some s2 ∧
      litCount 20 50 = some s1.numLedsOn ∧ litCount 40 50 = some s2.numLedsOn ∧
      0 ≤ s2.numLedsOn ∧ s2.numLedsOn ≤ s1.numLedsOn ∧ s1.numLedsOn ≤ 16 :=
  litCount_antitone { litState with distanceCm := 20, ctrl := 50 }
    { litState with distanceCm := 40, ctrl := 50 } rfl (by decide) (by decide) (by decide)

/-- C5: in the ON branch with lit count `k`, whatever the 16 slots held before,
`k` lies in `[0, 16]` and the pattern is exactly: slot `i` green for
`i < min k 4`, orange for `4 ≤ i < min k 9`, red for `9 ≤ i < k`, black for
`k ≤ i < 16`; so a lit slot 2 is green, a lit slot 6 orange, a lit slot 12 red. -/
theorem on_state_bands (st : State) (k : Int) (hlen : st.leds.length = NUM_LEDS)
    (hon : st.distanceCm ≤ st.ctrl) (hk : litCount st.distanceCm st.ctrl = some k) :
    0 ≤ k ∧ k ≤ 16 ∧ ∃ st' : State, updatePattern st = some st' ∧ st'.numLedsOn = k ∧
      st'.leds.length = 16 ∧
      (∀ i : Nat, i < min k.toNat 4 → st'.leds[i]? = some CRGB.Green) ∧
      (∀ i : Nat, 4 ≤ i → i < min k.toNat 9 → st'.leds[i]? = some CRGB.Orange) ∧
      (∀ i : Nat, 9 ≤ i → i < k.toNat → st'.leds[i]? = some CRGB.Red) ∧
      (∀ i : Nat, k.toNat ≤ i → i < 16 → st'.leds[i]? = some CRGB.Black) ∧
      (2 < k → st'.leds[2]? = some CRGB.Green) ∧
      (6 < k → st'.leds[6]? = some CRGB.Orange) ∧
      (12 < k → st'.leds[12]? = some CRGB.Red) := by
  obtain ⟨hk0, hk16⟩ := litCount_range _ _ _ hk
  have hupd := updatePattern_lit st k hlen hon hk
  obtain ⟨n, rfl⟩ := Int.eq_ofNat_of_zero_le hk0
  have hn : n ≤ 16 := by omega
  have slot : ∀ i : Nat, i < 16 →
      (lightZones (n : Int) darkStrip)[i]? =
        some (if i < n then zoneColor i else CRGB.Black) := fun i hi => lit_slot n i hn hi
  refine ⟨hk0, hk16, _, hupd, rfl, ?_, ?_, ?_, ?_, ?_, ?_, ?_, ?_⟩
  · show (lightZones (n : Int) darkStrip).length = 16
    rw [lightZones_dark n hn]; simp
  · intro i hi
    simp only [Int.toNat_ofNat, lt_min_iff] at hi
    show (lightZones (n : Int) darkStrip)[i]? = _
    rw [slot i (by omega)]
    simp [zoneColor, hi.1, hi.2]
  · intro i h4 hi
    simp only [Int.toNat_ofNat, lt_min_iff] at hi
    show (lightZones (n : Int) darkStrip)[i]? = _
    rw [slot i (by omega)]
    have h4n : ¬ i < 4 := by omega
    simp [zoneColor, hi.1, hi.2, h4n]
  · intro i h9 hi
    simp only [Int.toNat_ofNat] at hi
    show (lightZones (n : Int) darkStrip)[i]? = _
    rw [slot i (by omega)]
    have h4n : ¬ i < 4 := by omega
    have h9n : ¬ i < 9 := by omega
    simp [zoneColor, hi, h4n, h9n]
  · intro i hki hi
    simp only [Int.toNat_ofNat] at hki
    show (lightZones (n : Int) darkStrip)[i]? = _
    rw [slot i hi]
    have hn' : ¬ i < n := by omega
    simp [hn']
  · intro h
    show (lightZones (n : Int) darkStrip)[2]? = _
    rw [slot 2 (by decide)]
    have : 2 < n := by omega
    simp [zoneColor, this]
  · intro h
    show (lightZones (n : Int) darkStrip)[6]? = _
    rw [slot 6 (by decide)]
    have : 6 < n := by omega
    simp [zoneColor, this]
  · intro h
    show (lightZones (n : Int) darkStrip)[12]? = _
    rw [slot 12 (by decide)]
    have : 12 < n := by omega
    simp [zoneColor, this]

theorem on_state_bands_witness :
    litState.leds.length = NUM_LEDS ∧ litCount 20 50 = some 10 ∧
    (0 : Int) ≤ 10 ∧ (10 : Int) ≤ 16 ∧
    ∃ st' : State, updatePattern { litState with distanceCm := 20, ctrl := 50 } = some st' ∧
      st'.numLedsOn = 10 ∧ st'.leds.length = 16 ∧
      (∀ i : Nat, i < min (10 : Int).toNat 4 → st'.leds[i]? = some CRGB.Green) ∧
      (∀ i : Nat, 4 ≤ i → i < min (10 : Int).toNat 9 → st'.leds[i]? = some CRGB.Orange) ∧
      (∀ i : Nat, 9 ≤ i → i < (10 : Int).toNat → st'.leds[i]? = some CRGB.Red) ∧
      (∀ i : Nat, (10 : Int).toNat ≤ i → i < 16 → st'.leds[i]? = some CRGB.Black) ∧
      ((2 : Int) < 10 → st'.leds[2]? = some CRGB.Green) ∧
      ((6 : Int) < 10 → st'.leds[6]? = some CRGB.Orange) ∧
      ((12 : Int) < 10 → st'.leds[12]? = some CRGB.Red) :=
  ⟨by decide, by decide,
    on_state_bands { litState with distanceCm := 20, ctrl := 50 } 10
      (by decide) (by decide) (by decide)⟩

/-- C6: the pattern computation divides by zero exactly when the threshold is 5
and the distance is at most 5 (the ON branch then evaluates `map(d, 5, 5, 0,
16)`, whose denominator `5 - 5` is zero); a potentiometer reading of 55 with an
echo timeout is such an iteration.  For every other threshold and distance the
computation is defined. -/
theorem pattern_division_by_zero :
    (∀ st : State, updatePattern st = none ↔ (st.ctrl = 5 ∧ st.distanceCm ≤ 5)) ∧
      threshold 55 = some 5 ∧ readDistance 0 = 0 ∧ map 0 5 5 0 NUM_LEDS = none ∧
      (∀ st : State, loop st 55 0 = none) := by
  have hd : readDistance 0 = 0 := by rw [readDistance_eq 0 (by norm_num)]; rfl
  refine ⟨?_, by decide, hd, by decide, ?_⟩
  · intro st
    by_cases hoff : st.distanceCm > st.ctrl
    · rw [updatePattern_off st hoff]
      constructor
      · intro h; cases h
      · rintro ⟨h5, hd5⟩; omega
    · have hon : st.distanceCm ≤ st.ctrl := not_lt.mp hoff
      rw [updatePattern_on st hon, Option.map_eq_none', litCount_eq_none_iff]
      constructor
      · intro h; exact ⟨h, by omega⟩
      · intro h; exact h.1
  · intro st
    have ht : threshold 55 = some 5 := by decide
    simp only [loop, ht, hd]
    rw [updatePattern_on _ (by show (0 : Int) ≤ 5; decide)]
    rfl

/-- C7, refuted as stated: a pulse of 2941 µs gives distance 49, not 50
(`2941 * 0.034 / 2 = 49.997`, truncated). -/
theorem distance_2941_not_50 : readDistance 2941 = 49 ∧ readDistance 2941 ≠ 50 := by
  have h : readDistance 2941 = 49 := by rw [readDistance_eq 2941 (by norm_num)]; rfl
  exact ⟨h, by rw [h]; decide⟩

/-- C7, amended: for potentiometer reading 512 and pulse 2941 µs the threshold is
50 and the distance is 49, one below the threshold, so the iteration takes the
ON branch; the lit count is `map(49, 50, 5, 0, 16) = 0` and all 16 slots are
unlit. -/
theorem scenario_512_2941 (st : State) (hlen : st.leds.length = NUM_LEDS) :
    ∃ st' : State, loop st 512 2941 = some st' ∧ st'.ctrl = 50 ∧ st'.distanceCm = 49 ∧
      branchOf st'.distanceCm st'.ctrl = Branch.on ∧ map 49 50 5 0 NUM_LEDS = some 0 ∧
      st'.numLedsOn = 0 ∧ st'.leds = darkStrip := by
  have hd : readDistance 2941 = 49 := by rw [readDistance_eq 2941 (by norm_num)]; rfl
  have ht : threshold 512 = some 50 := by decide
  have hk : litCount 49 50 = some 0 := by decide
  refine ⟨⟨darkStrip, 0, 50, 512, 2941, 49⟩, ?_, rfl, rfl, by decide, by decide, rfl, rfl⟩
  simp only [loop, ht, hd]
  rw [updatePattern_lit ⟨st.leds, st.numLedsOn, 50, 512, ((2941 : Nat) : Int), 49⟩ 0 hlen
    (by show (49 : Int) ≤ 50; decide) hk, lightZones_none]
  rfl

theorem scenario_512_2941_witness :
    litState.leds.length = NUM_LEDS ∧
    ∃ st' : State, loop litState 512 2941 = some st' ∧ st'.ctrl = 50 ∧
      st'.distanceCm = 49 ∧ branchOf st'.distanceCm st'.ctrl = Branch.on ∧
      map 49 50 5 0 NUM_LEDS = some 0 ∧ st'.numLedsOn = 0 ∧ st'.leds = darkStrip :=
  ⟨by decide, scenario_512_2941 litState (by decide)⟩

/-- C8, refuted as stated: with threshold 50 (reading 512) an echo timeout
(pulse 0, distance 0) leaves the strip fully lit, not unlit. -/
theorem timeout_lights_strip :
    threshold 512 = some 50 ∧ readDistance 0 = 0 ∧
      (loop darkState 512 0).map State.leds = some fullStrip ∧ fullStrip ≠ darkStrip := by
  have hd : readDistance 0 = 0 := by rw [readDistance_eq 0 (by norm_num)]; rfl
  have ht : threshold 512 = some 50 := by decide
  refine ⟨ht, hd, ?_, by decide⟩
  simp only [loop, ht, hd]
  decide

/-- C8, amended: an echo timeout (pulse 0) yields distance 0 with no error path,
and for every threshold above 5 the iteration then takes the ON branch with lit
count 16: the whole strip is lit, slots 0..3 green, 4..8 orange, 9..15 red. -/
theorem timeout_full_strip (st : State) (r t : Int) (hlen : st.leds.length = NUM_LEDS)
    (hthr : threshold r = some t) (ht : 5 < t) :
    readDistance 0 = 0 ∧ ∃ st' : State, loop st r 0 = some st' ∧ st'.distanceCm = 0 ∧
      st'.ctrl = t ∧ branchOf st'.distanceCm st'.ctrl = Branch.on ∧
      st'.numLedsOn = 16 ∧ st'.leds = fullStrip := by
  have hd : readDistance 0 = 0 := by rw [readDistance_eq 0 (by norm_num)]; rfl
  have hk : litCount 0 t = some 16 := litCount_near 0 t ht (by decide)
  have hon : (0 : Int) ≤ t := by omega
  have hb : branchOf 0 t = Branch.on := by
    simp [branchOf, not_lt.mpr hon]
  refine ⟨hd, ⟨fullStrip, 16, t, r, ((0 : Nat) : Int), 0⟩, ?_, rfl, rfl, hb, rfl, rfl⟩
  simp only [loop, hthr, hd]
  rw [updatePattern_lit ⟨st.leds, st.numLedsOn, t, r, ((0 : Nat) : Int), 0⟩ 16 hlen hon hk,
    lightZones_full]

theorem timeout_full_strip_witness :
    darkState.leds.length = NUM_LEDS ∧ threshold 512 = some 50 ∧ (5 : Int) < 50 ∧
    readDistance 0 = 0 ∧ ∃ st' : State, loop darkState 512 0 = some st' ∧
      st'.distanceCm = 0 ∧ st'.ctrl = 50 ∧
      branchOf st'.distanceCm st'.ctrl = Branch.on ∧
      st'.numLedsOn = 16 ∧ st'.leds = fullStrip :=
  ⟨by decide, by decide, by decide,
    timeout_full_strip darkState 512 50 (by decide) (by decide) (by decide)⟩

/-- C9: the decision is inclusive on the ON side: the OFF branch is taken if
and only if the distance exceeds the threshold, the ON branch if and only if
`d ≤ t`, so `d = t` is ON; there the lit count is `map(d, t, 5, 0, 16)` clamped
into `[0, 16]`, and the pattern computation is the OFF result when `d > t` and
the ON result otherwise. -/
theorem branch_inclusive (st : State) (d t : Int) :
    (branchOf d t = Branch.off ↔ d > t) ∧ (branchOf d t = Branch.on ↔ d ≤ t) ∧
      branchOf t t = Branch.on ∧
      litCount d t = (map d t 5 0 NUM_LEDS).map (fun m => constrain m 0 NUM_LEDS) ∧
      updatePattern st =
        (if st.distanceCm > st.ctrl then some { st with leds := FastLED_clear st.leds }
         else (litCount st.distanceCm st.ctrl).map (fun n =>
          { st with numLedsOn := n, leds := lightZones n (FastLED_clear st.leds) })) := by
  refine ⟨?_, ?_, ?_, ?_, ?_⟩
  · unfold branchOf
    by_cases h : d > t <;> simp [h]
  · unfold branchOf
    by_cases h : d > t
    · simp [h]
    · simp [h, not_lt.mp h]
  · simp [branchOf]
  · unfold litCount
    cases map d t 5 0 NUM_LEDS <;> rfl
  · by_cases h : st.distanceCm > st.ctrl
    · rw [if_pos h, updatePattern_off st h]
    · rw [if_neg h, updatePattern_on st (not_lt.mp h)]

/-- C10: for a threshold above 5 and an object at most 5 cm away (in
particular `0 ≤ d ≤ 5`), `map(d, t, 5, 0, 16)` is at least 16, equal to 16 at
`d = 5`; the clamped lit count is exactly 16 and the whole strip is lit: slots
0..3 green, 4..8 orange, 9..15 red. -/
theorem near_object_full (st : State) (hlen : st.leds.length = NUM_LEDS)
    (ht : 5 < st.ctrl) (hd : st.distanceCm ≤ 5) :
    ∃ (m : Int) (st' : State), map st.distanceCm st.ctrl 5 0 NUM_LEDS = some m ∧ 16 ≤ m ∧
      (st.distanceCm = 5 → m = 16) ∧ updatePattern st = some st' ∧
      st'.numLedsOn = 16 ∧ st'.leds = fullStrip ∧
      (∀ i : Nat, i < 4 → st'.leds[i]? = some CRGB.Green) ∧
      (∀ i : Nat, 4 ≤ i → i < 9 → st'.leds[i]? = some CRGB.Orange) ∧
      (∀ i : Nat, 9 ≤ i → i < 16 → st'.leds[i]? = some CRGB.Red) := by
  have hon : st.distanceCm ≤ st.ctrl := by omega
  have hk := litCount_near st.distanceCm st.ctrl ht hd
  refine ⟨_, ⟨fullStrip, 16, st.ctrl, st.potValue, st.duration, st.distanceCm⟩,
    map_strip st.distanceCm st.ctrl ht hon, strip_quotient_ge _ _ ht hd, ?_, ?_, rfl, rfl,
    ?_, ?_, ?_⟩
  · intro h5
    show (st.ctrl - st.distanceCm) * 16 / (st.ctrl - 5) = 16
    rw [h5]
    exact Int.mul_ediv_cancel_left 16 (by omega)
  · rw [updatePattern_lit st 16 hlen hon hk, lightZones_full]
  · intro i hi
    show fullStrip[i]? = _
    interval_cases i <;> rfl
  · intro i h4 hi
    show fullStrip[i]? = _
    interval_cases i <;> rfl
  · intro i h9 hi
    show fullStrip[i]? = _
    interval_cases i <;> rfl

theorem near_object_full_witness :
    darkState.leds.length = NUM_LEDS ∧
    ∃ (m : Int) (st' : State), map 3 50 5 0 NUM_LEDS = some m ∧ 16 ≤ m ∧
      ((3 : Int) = 5 → m = 16) ∧
      updatePattern { darkState with distanceCm := 3, ctrl := 50 } = some st' ∧
      st'.numLedsOn = 16 ∧ st'.leds = fullStrip ∧
      (∀ i : Nat, i < 4 → st'.leds[i]? = some CRGB.Green) ∧
      (∀ i : Nat, 4 ≤ i → i < 9 → st'.leds[i]? = some CRGB.Orange) ∧
      (∀ i : Nat, 9 ≤ i → i < 16 → st'.leds[i]? = some CRGB.Red) :=
  ⟨by decide, near_object_full { darkState with distanceCm := 3, ctrl := 50 }
    (by decide) (by decide) (by decide)⟩

end ParkingSensor
